import Mathlib

/-!
Shallow embedding of the lemonaid notification store (src/lemonaid/inbox/db.py)
and of the unified watcher engine (src/lemonaid/lemon_watchers/watcher.py).

Conventions of the embedding:
- SQLite rows become a Lean structure `Row`; the table becomes a list of rows in
  insertion order together with the AUTOINCREMENT counter (`DB`).
- Unix timestamps (Python floats from `time.time()` / parsed ISO strings) are
  modelled as `Nat`; only their ordering and equality are ever used by the code.
- JSON metadata maps become association lists `List (String × String)` in dict
  insertion order; the code only reads and writes the string key "auto_name".
- Every Python function that reads the clock takes the current time `now` as an
  explicit argument.
- `ORDER BY created_at DESC LIMIT 1` leaves the order of ties unspecified in
  SQLite; the model deterministically keeps the earliest-inserted row among
  rows of equal `created_at`.
-/

namespace Lemonaid

/-- Status values ever written by db.py: 'unread' (default), 'read', 'archived'. -/
inductive Status
  | unread
  | read
  | archived
deriving DecidableEq, Repr

/-- One row of the `notifications` table, after migrations (columns: id, channel,
message, name, metadata, status, created_at, read_at, switch_source). -/
structure Row where
  id : Nat
  channel : String
  message : String
  name : Option String := none
  metadata : List (String × String) := []
  status : Status := .unread
  created_at : Nat
  read_at : Option Nat := none
  switch_source : Option String := none
deriving DecidableEq, Repr

/-- The notifications table: rows in insertion order plus the next AUTOINCREMENT id. -/
structure DB where
  rows : List Row := []
  nextId : Nat := 1
deriving DecidableEq, Repr

def emptyDB : DB := {}

/-- Metadata lookup (Python `metadata.get(k)` / `k in metadata`). -/
def mdLookup (md : List (String × String)) (k : String) : Option String :=
  (md.find? (fun p => p.1 == k)).map (·.2)

/-- Python dict assignment `md[k] = v`: overwrite in place if present, else append. -/
def mdSet (md : List (String × String)) (k v : String) : List (String × String) :=
  if (mdLookup md k).isSome then md.map (fun p => if p.1 == k then (k, v) else p)
  else md ++ [(k, v)]

/-- Python `md.pop(k, None)`, the removal part. -/
def mdErase (md : List (String × String)) (k : String) : List (String × String) :=
  md.filter (fun p => !(p.1 == k))

/-- db.get: SELECT * FROM notifications WHERE id = ? (first matching row). -/
def get (d : DB) (notification_id : Nat) : Option Row :=
  d.rows.find? (fun r => r.id == notification_id)

/-- WHERE clause of db.get_by_channel: channel = ? (AND status = 'unread' if unread_only). -/
def matchesChannel (c : String) (unreadOnly : Bool) (r : Row) : Bool :=
  r.channel == c && (!unreadOnly || r.status == .unread)

/-- ORDER BY created_at DESC LIMIT 1 over a list of rows: a row of maximal
`created_at`, keeping the earliest-inserted among ties (SQLite leaves tie order
unspecified). -/
def pickLatest : List Row → Option Row
  | [] => none
  | r :: rs =>
    match pickLatest rs with
    | none => some r
    | some b => if b.created_at > r.created_at then some b else some r

/-- db.get_by_channel: most recent notification for a channel. -/
def get_by_channel (d : DB) (channel : String) (unreadOnly : Bool) : Option Row :=
  pickLatest (d.rows.filter (matchesChannel channel unreadOnly))

/-- Per-channel MAX(id) of the `latest` sub-select in db.get_active; 0 when the
channel has no rows (unused in that case since the join finds nothing). -/
def maxIdForChannel (rows : List Row) (c : String) : Nat :=
  rows.foldl (fun m r => if r.channel == c then max m r.id else m) 0

/-- WHERE clause of db.get_active on one row: it is its channel's MAX(id) row,
is not archived and passes the optional switch_source filter
(`switch_source = ? OR switch_source IS NULL`). -/
def activeKeep (rows : List Row) (switch_source : Option String) (r : Row) : Bool :=
  r.id == maxIdForChannel rows r.channel &&
  !(r.status == .archived) &&
  (match switch_source with
   | none => true
   | some s => r.switch_source == some s || r.switch_source == none)

/-- db.get_active: the most recent row per channel, excluding archived, with the
optional switch_source filter. The SQL additionally orders the result
unread-first then by created_at descending; no claim depends on the order, so
the model returns the rows in table order. -/
def get_active (d : DB) (switch_source : Option String) : List Row :=
  d.rows.filter (activeKeep d.rows switch_source)

/-- db.add. `upsert = true` first looks for any existing row of the channel
(including read/archived); if found, the UPDATE sets message, name, metadata,
created_at = now, status = 'unread', read_at = NULL and switch_source on every
row with that id. Otherwise an INSERT appends a fresh unread row. Returns the
new table and the Notification value the Python function returns. -/
def add (d : DB) (channel message : String) (name : Option String)
    (metadata : List (String × String)) (upsert : Bool)
    (switch_source : Option String) (now : Nat) : DB × Row :=
  match (if upsert then get_by_channel d channel false else none) with
  | some existing =>
    ({ d with rows := d.rows.map (fun r =>
        if r.id == existing.id then
          { r with message := message, name := name, metadata := metadata,
                   created_at := now, status := .unread, read_at := none,
                   switch_source := switch_source }
        else r) },
     { id := existing.id, channel := channel, message := message, name := name,
       metadata := metadata, status := .unread, created_at := now,
       read_at := none, switch_source := switch_source })
  | none =>
    let newRow : Row :=
      { id := d.nextId, channel := channel, message := message, name := name,
        metadata := metadata, status := .unread, created_at := now,
        read_at := none, switch_source := switch_source }
    ({ rows := d.rows ++ [newRow], nextId := d.nextId + 1 }, newRow)

/-- db.mark_read: SET status = 'read', read_at = now WHERE id. -/
def mark_read (d : DB) (notification_id : Nat) (now : Nat) : DB :=
  { d with rows := d.rows.map (fun r =>
      if r.id == notification_id then { r with status := .read, read_at := some now }
      else r) }

/-- db.mark_all_read_for_channel: SET status = 'read', read_at = now (and message,
when a truthy message is supplied) WHERE channel AND status = 'unread'; returns
the number of rows updated. -/
def mark_all_read_for_channel (d : DB) (channel : String) (message : Option String)
    (now : Nat) : DB × Nat :=
  let hit (r : Row) : Bool := r.channel == channel && r.status == .unread
  let useMsg : Bool := match message with | some m => !(m == "") | none => false
  (({ d with rows := d.rows.map (fun r =>
      if hit r then
        { r with status := .read, read_at := some now,
                 message := if useMsg then message.getD r.message else r.message }
      else r) }),
   (d.rows.filter hit).length)

/-- db.update_message: SET message WHERE channel (every row of the channel,
whatever its status); returns the number of rows updated. -/
def update_message (d : DB) (channel message : String) : DB × Nat :=
  (({ d with rows := d.rows.map (fun r =>
      if r.channel == channel then { r with message := message } else r) }),
   (d.rows.filter (fun r => r.channel == channel)).length)

/-- db.update_name: set or clear the user-override name of one notification.
Setting (a truthy name) stashes the current truthy name under metadata key
"auto_name" when that key is absent; clearing pops "auto_name" back into the
name column. Returns whether a row was updated. -/
def update_name (d : DB) (notification_id : Nat) (name : Option String) : DB × Bool :=
  match get d notification_id with
  | none => (d, false)
  | some n =>
    let nameTruthy : Bool := match name with | some s => !(s == "") | none => false
    let finalAndMd : Option String × List (String × String) :=
      if nameTruthy then
        (name,
         if (mdLookup n.metadata "auto_name") = none then
           match n.name with
           | some old => if old == "" then n.metadata else mdSet n.metadata "auto_name" old
           | none => n.metadata
         else n.metadata)
      else
        (mdLookup n.metadata "auto_name", mdErase n.metadata "auto_name")
    ({ d with rows := d.rows.map (fun r =>
        if r.id == notification_id then
          { r with name := finalAndMd.1, metadata := finalAndMd.2 }
        else r) },
     true)

/-- db.archive: SET status = 'archived' WHERE id. It does not touch read_at. -/
def archive (d : DB) (notification_id : Nat) : DB :=
  { d with rows := d.rows.map (fun r =>
      if r.id == notification_id then { r with status := .archived } else r) }

/-- The DELETE condition of db.clear_old on one row given the cutoff:
status IN ('read','archived') AND (read_at < cutoff OR (read_at IS NULL AND
created_at < cutoff)). -/
def clearOldGone (cutoff : Nat) (r : Row) : Bool :=
  (r.status == .read || r.status == .archived) &&
  (match r.read_at with
   | some t => t < cutoff
   | none => r.created_at < cutoff)

/-- db.clear_old: delete read/archived rows past the age cutoff; returns the
number of deleted rows. -/
def clear_old (d : DB) (days : Nat) (now : Nat) : DB × Nat :=
  let cutoff := now - days * 24 * 60 * 60
  (({ d with rows := d.rows.filter (fun r => !clearOldGone cutoff r) }),
   (d.rows.filter (clearOldGone cutoff)).length)

/-!
Watcher engine (src/lemonaid/lemon_watchers/watcher.py).

- A transcript line is `Option Entry`: `none` models a line on which
  `json.loads` raises JSONDecodeError. An `Entry` keeps the raw timestamp
  string (`entry.get("timestamp", "")`) plus opaque fields that the
  backend-supplied classifier callbacks may inspect.
- `parse_timestamp` (ISO-8601 parsing via `datetime.fromisoformat`) is an
  oracle `String → Option Nat`; Python float truthiness means a parsed
  timestamp of exactly 0 is treated like an unparseable one wherever the code
  tests `if ts`.
- `ps`-probing and pane-existence probing are oracles
  `String → String → Bool`.
- Store writes performed through the injected callbacks (mark_read,
  mark_unread, update_message, archive_channel) are collected as a list of
  `StoreAction`s in call order.
-/

/-- One decoded transcript entry: the raw timestamp string plus opaque content
for the backend classifiers to look at. -/
structure Entry where
  timestamp : String := ""
  kind : String := ""
  data : String := ""
deriving DecidableEq, Repr

/-- One line of the transcript tail; none models a JSON decode failure. -/
abbrev Line := Option Entry

/-- lines[-50:] — the last (up to) 50 lines. -/
def lastEntries (n : Nat) (l : List Line) : List Line :=
  l.drop (l.length - n)

/-- The scanning loops shared by has_activity_since and check_needs_attention:
walk the (already reversed, newest-first) lines; skip undecodable lines; return
the first entry whose timestamp parses truthy, is strictly newer than `since`,
and satisfies the classifier. -/
def scanSince (parseTs : String → Option Nat) (since : Nat) (p : Entry → Bool) :
    List Line → Option Entry
  | [] => none
  | none :: rest => scanSince parseTs since p rest
  | some e :: rest =>
    match parseTs e.timestamp with
    | some t => if !(t == 0) && since < t && p e then some e else scanSince parseTs since p rest
    | none => scanSince parseTs since p rest

/-- watcher.has_activity_since on an already-read tail: first (newest-first,
within the last 50 lines) dismiss-worthy entry strictly newer than since_time. -/
def has_activity_since (parseTs : String → Option Nat) (lines : List Line)
    (since_time : Nat) (should_dismiss : Entry → Bool) : Option Entry :=
  scanSince parseTs since_time should_dismiss ((lastEntries 50 lines).reverse)

/-- watcher.check_needs_attention: same scan with the needs_attention classifier. -/
def check_needs_attention (parseTs : String → Option Nat) (lines : List Line)
    (since_time : Nat) (needs_attention : Entry → Bool) : Option Entry :=
  scanSince parseTs since_time needs_attention ((lastEntries 50 lines).reverse)

/-- The scanning loop of get_latest_activity: first (newest-first) entry with a
truthy (non-empty) activity description; returns (activity, raw timestamp). -/
def scanDescribe (describe : Entry → Option String) : List Line → Option (String × String)
  | [] => none
  | none :: rest => scanDescribe describe rest
  | some e :: rest =>
    match describe e with
    | some a => if a == "" then scanDescribe describe rest else some (a, e.timestamp)
    | none => scanDescribe describe rest

/-- watcher.get_latest_activity on an already-read tail. -/
def get_latest_activity (lines : List Line) (describe : Entry → Option String) :
    Option (String × String) :=
  scanDescribe describe ((lastEntries 50 lines).reverse)

/-- Python str.startswith (Lean core's String.startsWith is extern-backed and
does not reduce in the kernel, so the model compares the character lists). -/
def strStartsWith (s p : String) : Bool :=
  p.data.isPrefixOf s.data

/-- Python `tty.replace("/dev/", "")`: drop every (non-overlapping, left-to-right)
occurrence of "/dev/", as an executable fuel recursion (Lean core's
String.replace does not reduce in the kernel). The fuel, instantiated with the
length of the string, never runs out: every step consumes one fuel unit and at
least one character. -/
def removeDevFuel : Nat → List Char → List Char
  | _, [] => []
  | 0, l => l
  | n + 1, c :: cs =>
    if ("/dev/".data).isPrefixOf (c :: cs) then removeDevFuel n (cs.drop 4)
    else c :: removeDevFuel n cs

def pyReplaceDev (s : String) : String :=
  ⟨removeDevFuel s.data.length s.data⟩

/-- watcher.is_process_running_on_tty: strip "/dev/" from the TTY name, assume
alive when nothing is left to query, else ask the ps oracle whether
process_name occurs in the output of `ps -t tty -o comm=` (errors and timeouts
already folded into the oracle as `true`, matching the except branch). -/
def is_process_running_on_tty (psContains : String → String → Bool)
    (tty : String) (process_name : String) : Bool :=
  let tty_name := pyReplaceDev tty
  if tty_name == "" then true else psContains tty_name process_name

/-- watcher._check_pane_exists: trivially true for a falsy switch_source,
otherwise ask the pane oracle. -/
def check_pane_exists (pane : String → String → Bool) (tty : String)
    (switch_source : Option String) : Bool :=
  match switch_source with
  | none => true
  | some s => if s == "" then true else pane tty s

/-- One element of the `active` list handed to the watcher:
(channel, session_id, cwd, created_at, is_unread, tty, db_message, switch_source). -/
structure ActiveItem where
  channel : String
  session_id : String
  cwd : String
  created_at : Nat
  is_unread : Bool
  tty : Option String := none
  db_message : String := ""
  switch_source : Option String := none
deriving DecidableEq, Repr

/-- Python truthiness of the optional tty string. -/
def ttyTruthy : Option String → Bool
  | none => false
  | some t => !(t == "")

/-- Python truthiness of the optional switch_source string. -/
def ssTruthy : Option String → Bool
  | none => false
  | some s => !(s == "")

/-- The first-pass condition of _archive_stale_sessions on one item:
`tty and switch_source and not _check_pane_exists(tty, switch_source)`. -/
def paneGone (pane : String → String → Bool) (it : ActiveItem) : Bool :=
  ttyTruthy it.tty && ssTruthy it.switch_source &&
  !(check_pane_exists pane (it.tty.getD "") it.switch_source)

/-- First pass of _archive_stale_sessions: archive items whose pane is gone,
keep the rest (in order) for the second pass. Returns (archived channels,
remaining items). -/
def firstPass (pane : String → String → Bool) : List ActiveItem → List String × List ActiveItem
  | [] => ([], [])
  | it :: rest =>
    let (arch, rem) := firstPass pane rest
    if paneGone pane it then (it.channel :: arch, rem) else (arch, it :: rem)

/-- Process-name inference from the channel prefix in _archive_stale_sessions. -/
def inferProcessName (channel : String) : String :=
  if strStartsWith channel "claude:" then "claude"
  else if strStartsWith channel "openclaw:" then "openclaw"
  else "codex"

/-- Append v to the group of key k, preserving dict insertion order of keys. -/
def addToGroups (gs : List ((String × String) × List (String × Nat)))
    (k : String × String) (v : String × Nat) :
    List ((String × String) × List (String × Nat)) :=
  match gs with
  | [] => [(k, [v])]
  | (k1, vs) :: rest =>
    if k1 = k then (k1, vs ++ [v]) :: rest else (k1, vs) :: addToGroups rest k v

/-- The tty_groups dict of _archive_stale_sessions: group the remaining items by
(tty, inferred process name), skipping items with a falsy tty; each group holds
(channel, created_at) pairs in list order. -/
def buildGroups (items : List ActiveItem) :
    List ((String × String) × List (String × Nat)) :=
  items.foldl (fun gs it =>
    match it.tty with
    | none => gs
    | some t =>
      if t == "" then gs
      else addToGroups gs (t, inferProcessName it.channel) (it.channel, it.created_at)) []

/-- Stable insertion for `sessions.sort(key=created_at, reverse=True)`: a new
element goes after every element with created_at ≥ its own. -/
def insertByCreatedDesc (x : String × Nat) : List (String × Nat) → List (String × Nat)
  | [] => [x]
  | y :: ys => if x.2 > y.2 then x :: y :: ys else y :: insertByCreatedDesc x ys

/-- Python's stable sort by created_at descending. -/
def sortByCreatedDesc (l : List (String × Nat)) : List (String × Nat) :=
  l.foldl (fun acc x => insertByCreatedDesc x acc) []

/-- Second-pass handling of one (tty, process_name) group: a singleton is
archived iff its process is gone; with several sessions the newest by
created_at is kept, the others archived, and the kept one is archived too when
the process is gone. Returns the channels archived, in archive-call order. -/
def processGroup (psContains : String → String → Bool) (tty pname : String)
    (sessions : List (String × Nat)) : List String :=
  match sessions with
  | [s] => if !is_process_running_on_tty psContains tty pname then [s.1] else []
  | _ =>
    match sortByCreatedDesc sessions with
    | [] => []
    | newest :: rest =>
      let running := is_process_running_on_tty psContains tty pname
      rest.map (·.1) ++ (if !running then [newest.1] else [])

/-- watcher._archive_stale_sessions: the channels archived by one reconciliation
pass, in archive_channel call order (Python accumulates them in a set; every
channel appears at most once per pass since pass one removes its items from the
second pass and each remaining channel lands in exactly one group). -/
def archive_stale_sessions (pane psContains : String → String → Bool)
    (active : List ActiveItem) : List String :=
  let (arch1, remaining) := firstPass pane active
  arch1 ++ (buildGroups remaining).foldl
    (fun acc g => acc ++ processGroup psContains g.1.1 g.1.2 g.2) []

/-- A store write performed by the watcher loop through its injected callbacks. -/
inductive StoreAction
  | markRead (channel : String)
  | markUnread (channel : String)
  | updateMessage (channel message : String)
  | archiveChannel (channel : String)
deriving DecidableEq, Repr

/-- One backend as the loop sees it: channel prefix, session-path resolution and
the three classifier callbacks (needs_attention is optional). -/
structure Backend where
  channelPrefix : String
  get_session_path : String → String → Option String
  describe_activity : Entry → Option String
  should_dismiss : Entry → Bool
  needs_attention : Option (Entry → Bool) := none

/-- The loop's per-channel routing: first backend whose prefix starts the
channel (the Python dict iterates its prefixes in insertion order). -/
def findBackend (backends : List Backend) (channel : String) : Option Backend :=
  backends.find? (fun b => strStartsWith channel b.channelPrefix)

/-- Association-list find (Python `dict.get`). -/
def assocFind {α : Type} (l : List (String × α)) (k : String) : Option α :=
  (l.find? (fun p => p.1 == k)).map (·.2)

/-- Association-list store (Python `dict[k] = v`). -/
def assocPut {α : Type} (l : List (String × α)) (k : String) (v : α) :
    List (String × α) :=
  if (l.find? (fun p => p.1 == k)).isSome then
    l.map (fun p => if p.1 == k then (k, v) else p)
  else l ++ [(k, v)]

/-- Mutable loop state: the last_observed_ts and last_attention_ts dicts and the
session-path cache (keyed by "channel:session_id"). -/
structure WatcherState where
  last_observed_ts : List (String × Nat) := []
  last_attention_ts : List (String × Nat) := []
  session_cache : List (String × String) := []
deriving Repr

/-- The filesystem and clock oracles one tick runs against: does a path exist,
what lines does read_jsonl_tail of a path produce, and what does parse_timestamp
make of a raw timestamp string. -/
structure WatcherEnv where
  pathExists : String → Bool
  fileLines : String → List Line
  parseTs : String → Option Nat

/-- Session-path resolution with caching, from the loop body: use the cached
path if it is present and still exists, else call the backend's
get_session_path and cache the result; none means `continue` (skip channel). -/
def resolvePath (env : WatcherEnv) (b : Backend) (st : WatcherState)
    (it : ActiveItem) : Option (String × WatcherState) :=
  let cache_key := it.channel ++ ":" ++ it.session_id
  match assocFind st.session_cache cache_key with
  | some p =>
    if env.pathExists p then some (p, st)
    else
      match b.get_session_path it.session_id it.cwd with
      | none => none
      | some p1 =>
        some (p1, { st with session_cache := assocPut st.session_cache cache_key p1 })
  | none =>
    match b.get_session_path it.session_id it.cwd with
    | none => none
    | some p1 =>
      some (p1, { st with session_cache := assocPut st.session_cache cache_key p1 })

/-- The unread branch of the loop body: an unread notification is marked read
iff has_activity_since finds a dismiss-worthy entry newer than created_at. -/
def dismissStep (parseTs : String → Option Nat) (lines : List Line)
    (created_at : Nat) (isUnread : Bool) (sd : Entry → Bool) (channel : String) :
    List StoreAction :=
  if isUnread then
    match has_activity_since parseTs lines created_at sd with
    | some _ => [.markRead channel]
    | none => []
  else []

/-- The attention branch of the loop body: a read notification is marked unread
when check_needs_attention fires since last_attention_ts (or created_at); a
truthy entry timestamp is recorded back into last_attention_ts. -/
def attentionStep (parseTs : String → Option Nat) (lines : List Line)
    (created_at : Nat) (isUnread : Bool) (markUnreadEnabled : Bool)
    (na : Option (Entry → Bool)) (channel : String)
    (lastAttention : List (String × Nat)) :
    List (String × Nat) × List StoreAction :=
  if !isUnread && markUnreadEnabled then
    match na with
    | some f =>
      let since_ts := (assocFind lastAttention channel).getD created_at
      match check_needs_attention parseTs lines since_ts f with
      | some e =>
        (match parseTs e.timestamp with
         | some t => if !(t == 0) then assocPut lastAttention channel t else lastAttention
         | none => lastAttention,
         [.markUnread channel])
      | none => (lastAttention, [])
    | none => (lastAttention, [])
  else (lastAttention, [])

/-- The message branch of the loop body: update_message fires only when the
latest describable activity has a truthy parsed timestamp different from the
one recorded in last_observed_ts for the channel; the new timestamp is then
recorded. -/
def messageStep (parseTs : String → Option Nat) (lines : List Line)
    (describe : Entry → Option String) (channel : String)
    (lastObserved : List (String × Nat)) :
    List (String × Nat) × List StoreAction :=
  match get_latest_activity lines describe with
  | some ms =>
    (match parseTs ms.2 with
     | some t =>
       if !(t == 0) && !(assocFind lastObserved channel == some t) then
         (assocPut lastObserved channel t, [.updateMessage channel ms.1])
       else (lastObserved, [])
     | none => (lastObserved, []))
  | none => (lastObserved, [])

/-- The per-channel body of unified_watch_loop for one item of the active list:
route to a backend (or skip), resolve the session path (or skip), then run the
dismiss, attention and message branches in order. markUnreadEnabled models the
optional mark_unread callback being injected. -/
def processChannel (env : WatcherEnv) (backends : List Backend)
    (markUnreadEnabled : Bool) (st : WatcherState) (it : ActiveItem) :
    WatcherState × List StoreAction :=
  match findBackend backends it.channel with
  | none => (st, [])
  | some b =>
    match resolvePath env b st it with
    | none => (st, [])
    | some ps =>
      let lines := env.fileLines ps.1
      let st1 := ps.2
      let acts1 := dismissStep env.parseTs lines it.created_at it.is_unread
        b.should_dismiss it.channel
      let r2 := attentionStep env.parseTs lines it.created_at it.is_unread
        markUnreadEnabled b.needs_attention it.channel st1.last_attention_ts
      let st2 := { st1 with last_attention_ts := r2.1 }
      let r3 := messageStep env.parseTs lines b.describe_activity it.channel
        st2.last_observed_ts
      ({ st2 with last_observed_ts := r3.1 }, acts1 ++ r2.2 ++ r3.2)

/-- The channel for-loop inside the tick's try block, with a per-channel body
that may raise (Except models a Python exception: backend callbacks, file I/O
re-raised as other exception types, store errors). The first exception aborts
the remaining items of the tick; the boolean reports whether one was raised.
State mutations of the already-processed items survive, as the Python dicts do. -/
def runTickBody (body : WatcherState → ActiveItem → Except String (WatcherState × List StoreAction)) :
    WatcherState → List ActiveItem → WatcherState × List StoreAction × Bool
  | st, [] => (st, [], false)
  | st, it :: rest =>
    match body st it with
    | .error _ => (st, [], true)
    | .ok sa =>
      let r := runTickBody body sa.1 rest
      (r.1, sa.2 ++ r.2.1, r.2.2)

/-- The while loop around the try/except: each element of `ticks` is the active
list one tick works on. The except clause catches any exception, so a raised
tick still yields a (possibly truncated) result and the following ticks run.
Returns the per-tick (actions, raised) results, in order. -/
def runTicks (body : WatcherState → ActiveItem → Except String (WatcherState × List StoreAction)) :
    WatcherState → List (List ActiveItem) → WatcherState × List (List StoreAction × Bool)
  | st, [] => (st, [])
  | st, active :: rest =>
    let r := runTickBody body st active
    let rs := runTicks body r.1 rest
    (rs.1, (r.2.1, r.2.2) :: rs.2)

/-!
The mutation operations of the store, as an operation type, for reachability
statements (the parameters of each constructor are the Python arguments plus
the clock reading where the operation uses time.time()).
-/

/-- One store mutation of db.py, with its arguments and clock reading. -/
inductive StoreOp
  | opAdd (channel message : String) (name : Option String)
      (metadata : List (String × String)) (upsert : Bool)
      (switch_source : Option String) (now : Nat)
  | opMarkRead (notification_id now : Nat)
  | opMarkAllRead (channel : String) (message : Option String) (now : Nat)
  | opArchive (notification_id : Nat)
  | opUpdateMessage (channel message : String)
  | opUpdateName (notification_id : Nat) (name : Option String)
  | opClearOld (days now : Nat)

/-- Apply one mutation to the table. -/
def applyOp (d : DB) : StoreOp → DB
  | .opAdd c m n md u ss now => (add d c m n md u ss now).1
  | .opMarkRead i now => mark_read d i now
  | .opMarkAllRead c m now => (mark_all_read_for_channel d c m now).1
  | .opArchive i => archive d i
  | .opUpdateMessage c m => (update_message d c m).1
  | .opUpdateName i n => (update_name d i n).1
  | .opClearOld days now => (clear_old d days now).1

/-- Apply a sequence of mutations, oldest first. -/
def runOps (d : DB) (ops : List StoreOp) : DB :=
  ops.foldl applyOp d

/-- The read_at/status relation the mutations actually maintain on each row:
an unread row has no read_at, a read row has one, and an archived row may have
either (archive does not touch read_at). -/
def rowInv (r : Row) : Bool :=
  match r.status with
  | .unread => r.read_at.isNone
  | .read => r.read_at.isSome
  | .archived => true

lemma rowInv_unread_clear (r : Row) (h : r.status = .unread) (h2 : r.read_at = none) :
    rowInv r = true := by
  simp [rowInv, h, h2]

lemma rowInv_of_same_fields (r s : Row) (hst : s.status = r.status)
    (hra : s.read_at = r.read_at) (h : rowInv r = true) : rowInv s = true := by
  unfold rowInv at h ⊢
  rw [hst, hra]
  exact h

lemma applyOp_preserves_rowInv (d : DB) (op : StoreOp)
    (hd : ∀ r ∈ d.rows, rowInv r = true) :
    ∀ r ∈ (applyOp d op).rows, rowInv r = true := by
  cases op with
  | opAdd c m n md u ss now =>
    intro r hr
    simp only [applyOp, add] at hr
    rcases h : (if u then get_by_channel d c false else none) with _ | existing
    · rw [h] at hr
      simp only [List.mem_append, List.mem_singleton] at hr
      rcases hr with hr | hr
      · exact hd r hr
      · subst hr; rfl
    · rw [h] at hr
      simp only [List.mem_map] at hr
      obtain ⟨r0, hr0, hmap⟩ := hr
      by_cases hid : (r0.id == existing.id) = true
      · rw [if_pos hid] at hmap; subst hmap; rfl
      · rw [if_neg hid] at hmap; subst hmap; exact hd r0 hr0
  | opMarkRead i now =>
    intro r hr
    simp only [applyOp, mark_read, List.mem_map] at hr
    obtain ⟨r0, hr0, hmap⟩ := hr
    by_cases hid : (r0.id == i) = true
    · rw [if_pos hid] at hmap; subst hmap; rfl
    · rw [if_neg hid] at hmap; subst hmap; exact hd r0 hr0
  | opMarkAllRead c m now =>
    intro r hr
    simp only [applyOp, mark_all_read_for_channel, List.mem_map] at hr
    obtain ⟨r0, hr0, hmap⟩ := hr
    by_cases hhit : (r0.channel == c && r0.status == Status.unread) = true
    · rw [if_pos hhit] at hmap; subst hmap; rfl
    · rw [if_neg hhit] at hmap; subst hmap; exact hd r0 hr0
  | opArchive i =>
    intro r hr
    simp only [applyOp, archive, List.mem_map] at hr
    obtain ⟨r0, hr0, hmap⟩ := hr
    by_cases hid : (r0.id == i) = true
    · rw [if_pos hid] at hmap; subst hmap; rfl
    · rw [if_neg hid] at hmap; subst hmap; exact hd r0 hr0
  | opUpdateMessage c m =>
    intro r hr
    simp only [applyOp, update_message, List.mem_map] at hr
    obtain ⟨r0, hr0, hmap⟩ := hr
    by_cases hc : (r0.channel == c) = true
    · rw [if_pos hc] at hmap
      exact rowInv_of_same_fields r0 r (by rw [← hmap]) (by rw [← hmap]) (hd r0 hr0)
    · rw [if_neg hc] at hmap; subst hmap; exact hd r0 hr0
  | opUpdateName i n =>
    intro r hr
    simp only [applyOp, update_name] at hr
    rcases hg : get d i with _ | n0
    · rw [hg] at hr; exact hd r hr
    · rw [hg] at hr
      simp only [List.mem_map] at hr
      obtain ⟨r0, hr0, hmap⟩ := hr
      by_cases hid : (r0.id == i) = true
      · rw [if_pos hid] at hmap
        exact rowInv_of_same_fields r0 r (by rw [← hmap]) (by rw [← hmap]) (hd r0 hr0)
      · rw [if_neg hid] at hmap; subst hmap; exact hd r0 hr0
  | opClearOld days now =>
    intro r hr
    simp only [applyOp, clear_old, List.mem_filter] at hr
    exact hd r hr.1

lemma runOps_preserves_rowInv (ops : List StoreOp) :
    ∀ d : DB, (∀ r ∈ d.rows, rowInv r = true) →
      ∀ r ∈ (runOps d ops).rows, rowInv r = true := by
  induction ops with
  | nil => intro d hd; exact hd
  | cons op ops ih =>
    intro d hd
    exact ih (applyOp d op) (applyOp_preserves_rowInv d op hd)

/-- C4 (counterexample): the claimed iff "read_at is non-NULL iff
status ≠ unread" fails on the code: upserting a fresh notification at time 5
and then archiving it leaves a row with status 'archived' and read_at NULL,
because db.archive only sets the status column. -/
theorem read_at_iff_fails_on_archive :
    ¬ (∀ r ∈ (archive (add emptyDB "c" "m" none [] true none 5).1 1).rows,
        (r.read_at ≠ none ↔ r.status ≠ Status.unread)) := by
  intro h
  have := h { id := 1, channel := "c", message := "m", metadata := [],
              status := .archived, created_at := 5 } (by decide)
  simp at this

/-- C4 (amended): for every table reachable from the empty table through the
store's mutation operations (add/upsert, mark_read, mark_all_read_for_channel,
archive, update_message, update_name, clear_old), every row satisfies: an
unread row has read_at NULL and a read row has read_at non-NULL; an archived
row may have either, since archive(id) leaves read_at untouched. -/
theorem read_at_invariant_reachable (ops : List StoreOp) :
    ∀ r ∈ (runOps emptyDB ops).rows, rowInv r = true :=
  runOps_preserves_rowInv ops emptyDB (by intro r hr; simp [emptyDB] at hr)

/-- Witness for C4's amended theorem at a concrete operation sequence: after an
upsert at time 5, a mark_read at 6 and an archive, the single reached row
satisfies the invariant. -/
theorem read_at_invariant_reachable_witness :
    rowInv { id := 1, channel := "c", message := "m", name := none, metadata := [],
             status := .archived, created_at := 5, read_at := some 6,
             switch_source := none } = true :=
  read_at_invariant_reachable
    [.opAdd "c" "m" none [] true none 5, .opMarkRead 1 6, .opArchive 1]
    { id := 1, channel := "c", message := "m", name := none, metadata := [],
      status := .archived, created_at := 5, read_at := some 6,
      switch_source := none }
    (by decide)

/-!
Module surface of inbox/db.py versus the store calls made by the TUI
(inbox/tui/app.py): transcription of the def statements of db.py and of the
`db.<name>` attribute accesses of app.py.
-/

/-- The module-level functions defined in src/lemonaid/inbox/db.py, in source
order. -/
def dbModuleFunctions : List String :=
  ["get_db_path", "_init_schema", "connect", "get", "get_unread", "get_active",
   "get_by_channel", "add", "mark_read", "mark_all_read_for_channel",
   "update_message", "update_name", "mark_read_by_tty", "archive", "clear_old",
   "add_notification"]

/-- The attributes of the db module that src/lemonaid/inbox/tui/app.py accesses
as `db.<name>` (plus the Notification class). -/
def tuiAppDbCalls : List String :=
  ["Notification", "connect", "get", "get_active", "get_history", "archive",
   "mark_read", "mark_all_read_for_channel", "mark_unread_for_channel",
   "update_message", "update_name"]

/-- C3: the TUI's _mark_channel_unread handler calls db.mark_unread_for_channel,
but inbox/db.py defines no such function, so the store does not provide the
markUnreadForChannel operation the claim (and the TUI code) relies on; the
call raises AttributeError at runtime. -/
theorem mark_unread_for_channel_missing :
    "mark_unread_for_channel" ∈ tuiAppDbCalls ∧
    "mark_unread_for_channel" ∉ dbModuleFunctions := by
  constructor
  · decide
  · decide

/-- The claim's frame relation between an old row and its updated image under
update_message(channel, m): the message column of a matching row becomes m,
every other column and every non-matching row is untouched. -/
def msgFrame (c m : String) (r r1 : Row) : Prop :=
  r1.id = r.id ∧ r1.channel = r.channel ∧ r1.name = r.name ∧
  r1.metadata = r.metadata ∧ r1.status = r.status ∧
  r1.created_at = r.created_at ∧ r1.read_at = r.read_at ∧
  r1.switch_source = r.switch_source ∧
  r1.message = (if r.channel = c then m else r.message)

lemma msgFrame_map (c m : String) (rows : List Row) :
    List.Forall₂ (msgFrame c m) rows
      (rows.map (fun r => if r.channel == c then { r with message := m } else r)) := by
  induction rows with
  | nil => simp
  | cons r rs ih =>
    simp only [List.map_cons]
    refine List.Forall₂.cons ?_ ih
    by_cases hc : (r.channel == c) = true
    · have hc' : r.channel = c := eq_of_beq hc
      simp only [if_pos hc]
      exact ⟨rfl, rfl, rfl, rfl, rfl, rfl, rfl, rfl, by rw [if_pos hc']⟩
    · have hc' : ¬ r.channel = c := fun h => hc (by rw [h]; exact beq_self_eq_true c)
      simp only [if_neg hc]
      exact ⟨rfl, rfl, rfl, rfl, rfl, rfl, rfl, rfl, by rw [if_neg hc']⟩

/-- C10: update_message(channel, m) rewrites the message column of every row of
that channel — read and archived history rows included — leaves all their other
columns and all rows of other channels unchanged, keeps the id counter, and
returns the number of rows of that channel. -/
theorem update_message_frame (d : DB) (c m : String) :
    (update_message d c m).1.nextId = d.nextId ∧
    List.Forall₂ (msgFrame c m) d.rows (update_message d c m).1.rows ∧
    (update_message d c m).2 = d.rows.countP (fun r => r.channel == c) :=
  ⟨rfl, msgFrame_map c m d.rows, (List.countP_eq_length_filter _ _).symm⟩

lemma find?_append_none {α : Type} (p : α → Bool) (l1 l2 : List α)
    (h : l1.find? p = none) : (l1 ++ l2).find? p = l2.find? p := by
  induction l1 with
  | nil => rfl
  | cons a l ih =>
    rw [List.find?_cons] at h
    rw [List.cons_append, List.find?_cons]
    cases hp : p a
    · simp only [hp] at h ⊢
      exact ih h
    · simp only [hp] at h
      exact absurd h (by simp)

lemma mdLookup_eq_none_iff (md : List (String × String)) (k : String) :
    mdLookup md k = none ↔ (∀ p ∈ md, (p.1 == k) = false) := by
  unfold mdLookup
  rw [Option.map_eq_none', List.find?_eq_none]
  constructor
  · intro h p hp
    rcases hq : (p.1 == k) with _ | _
    · rfl
    · exact absurd hq (by simpa using h p hp)
  · intro h p hp
    simp [h p hp]

lemma mdLookup_mdSet_absent (md : List (String × String)) (k v : String)
    (h : mdLookup md k = none) : mdLookup (mdSet md k v) k = some v := by
  unfold mdSet
  rw [if_neg (by rw [h]; simp)]
  unfold mdLookup at h ⊢
  rw [Option.map_eq_none'] at h
  rw [find?_append_none _ _ _ h]
  simp

lemma mdErase_mdSet_absent (md : List (String × String)) (k v : String)
    (h : mdLookup md k = none) : mdErase (mdSet md k v) k = md := by
  unfold mdSet
  rw [if_neg (by rw [h]; simp)]
  unfold mdErase
  rw [List.filter_append]
  have h2 := (mdLookup_eq_none_iff md k).mp h
  rw [List.filter_eq_self.mpr (by intro p hp; rw [h2 p hp]; rfl)]
  simp

lemma find?_map_update (rows : List Row) (i : Nat) (f : Row → Row)
    (hf : ∀ r : Row, (f r).id = r.id) :
    (rows.map (fun r => if r.id == i then f r else r)).find? (fun r => r.id == i) =
      (rows.find? (fun r => r.id == i)).map f := by
  induction rows with
  | nil => rfl
  | cons r rs ih =>
    by_cases h : (r.id == i) = true
    · simp only [List.map_cons, if_pos h]
      rw [List.find?_cons, List.find?_cons]
      have h2 : ((f r).id == i) = true := by rw [hf r]; exact h
      simp [h2, h]
    · simp only [List.map_cons, if_neg h]
      rw [List.find?_cons, List.find?_cons]
      rw [Bool.not_eq_true] at h
      simp only [h]
      exact ih

lemma beq_false_of_ne {α : Type} [BEq α] [LawfulBEq α] {a b : α} (h : a ≠ b) :
    (a == b) = false := by
  cases hb : a == b
  · rfl
  · exact absurd (eq_of_beq hb) h

lemma get_mk (rows : List Row) (k i : Nat) :
    get { rows := rows, nextId := k } i = rows.find? (fun r => r.id == i) := rfl

/-- C9 (amended): for a notification whose metadata has no "auto_name" key and
whose name is non-null AND non-empty, update_name(id, X) with a truthy X
followed by update_name(id, None) restores the whole row — the original name
comes back out of the metadata stash and the stash key is removed again. -/
theorem update_name_set_clear_roundtrip (d : DB) (i : Nat) (n : Row) (x nm : String)
    (hget : get d i = some n)
    (hmd : mdLookup n.metadata "auto_name" = none)
    (hname : n.name = some nm) (hnm : nm ≠ "") (hx : x ≠ "") :
    get (update_name (update_name d i (some x)).1 i none).1 i = some n := by
  have hxb : (x == "") = false := beq_false_of_ne hx
  have hnmb : (nm == "") = false := beq_false_of_ne hnm
  have hfind : d.rows.find? (fun r => r.id == i) = some n := hget
  have h1 : (update_name d i (some x)).1 =
      { d with rows := d.rows.map (fun r => if r.id == i then
          { r with name := some x, metadata := mdSet n.metadata "auto_name" nm }
        else r) } := by
    simp only [update_name, hget, hxb, hname, hmd, hnmb, Bool.not_false, if_true]
    rfl
  have h2 : get (update_name d i (some x)).1 i =
      some { n with name := some x, metadata := mdSet n.metadata "auto_name" nm } := by
    rw [h1, get_mk, find?_map_update d.rows i
      (fun r => { r with name := some x, metadata := mdSet n.metadata "auto_name" nm })
      (fun r => rfl), hfind]
    rfl
  have h3 : mdLookup (mdSet n.metadata "auto_name" nm) "auto_name" = some nm :=
    mdLookup_mdSet_absent n.metadata "auto_name" nm hmd
  have h4 : mdErase (mdSet n.metadata "auto_name" nm) "auto_name" = n.metadata :=
    mdErase_mdSet_absent n.metadata "auto_name" nm hmd
  have h5 : ∀ X : DB,
      get X i = some { n with name := some x, metadata := mdSet n.metadata "auto_name" nm } →
      get (update_name X i none).1 i = some { n with name := some nm } := by
    intro X hXi
    have hXfind : X.rows.find? (fun r => r.id == i) =
        some { n with name := some x, metadata := mdSet n.metadata "auto_name" nm } := hXi
    simp only [update_name, hXi, h3, h4]
    simp only [show (false = true) = False from by simp, if_false]
    rw [get_mk, find?_map_update _ i
      (fun r => { r with name := some nm, metadata := n.metadata }) (fun r => rfl), hXfind]
    rfl
  rw [h5 (update_name d i (some x)).1 h2]
  obtain ⟨nid, nch, nmsg, nna, nmd, nst, nca, nra, nss⟩ := n
  simp only at hname
  rw [hname]

/-- Witness for C9's amended theorem: a concrete table whose single row is named
"orig"; setting the name to "X" and clearing it restores the row. -/
theorem update_name_set_clear_roundtrip_witness :
    get (update_name (update_name (add emptyDB "c" "m" (some "orig") [] true none 1).1
        1 (some "X")).1 1 none).1 1 =
      some { id := 1, channel := "c", message := "m", name := some "orig",
             metadata := [], status := .unread, created_at := 1, read_at := none,
             switch_source := none } :=
  update_name_set_clear_roundtrip
    (add emptyDB "c" "m" (some "orig") [] true none 1).1 1
    { id := 1, channel := "c", message := "m", name := some "orig",
      metadata := [], status := .unread, created_at := 1, read_at := none,
      switch_source := none }
    "X" "orig" (by decide) (by decide) (by decide) (by decide) (by decide)

/-- C9 (counterexample): the claim as stated fails for a non-null but EMPTY
name. Python truthiness of `notification.name` skips the auto_name stash for
name = "", so set-then-clear maps name some "" to none instead of restoring it:
update_name checks `notification.name:`, not `is not None`. -/
theorem update_name_roundtrip_fails_empty_name :
    (get (update_name (update_name (add emptyDB "c" "m" (some "") [] true none 1).1
        1 (some "X")).1 1 none).1 1).map Row.name = some none ∧
    (some (none : Option String)) ≠ some (some "") := by
  constructor
  · decide
  · decide

lemma pickLatest_none_iff (l : List Row) : pickLatest l = none ↔ l = [] := by
  cases l with
  | nil => simp [pickLatest]
  | cons r rs =>
    cases hpl : pickLatest rs with
    | none => simp [pickLatest, hpl]
    | some b =>
      simp only [pickLatest, hpl]
      split
      · simp
      · simp

lemma pickLatest_mem : ∀ {l : List Row} {b : Row}, pickLatest l = some b → b ∈ l := by
  intro l
  induction l with
  | nil => intro b h; cases h
  | cons r rs ih =>
    intro b h
    cases hpl : pickLatest rs with
    | none =>
      simp only [pickLatest, hpl] at h
      cases h
      exact List.mem_cons_self r rs
    | some c =>
      simp only [pickLatest, hpl] at h
      by_cases hgt : c.created_at > r.created_at
      · rw [if_pos hgt] at h
        cases h
        exact List.mem_cons_of_mem r (ih hpl)
      · rw [if_neg hgt] at h
        cases h
        exact List.mem_cons_self r rs

lemma pickLatest_le : ∀ {l : List Row} {b : Row}, pickLatest l = some b →
    ∀ r ∈ l, r.created_at ≤ b.created_at := by
  intro l
  induction l with
  | nil => intro b h; cases h
  | cons r rs ih =>
    intro b h r1 hr1
    cases hpl : pickLatest rs with
    | none =>
      simp only [pickLatest, hpl] at h
      cases h
      rcases List.mem_cons.mp hr1 with h1 | h1
      · rw [h1]
      · rw [(pickLatest_none_iff rs).mp hpl] at h1
        cases h1
    | some c =>
      simp only [pickLatest, hpl] at h
      by_cases hgt : c.created_at > r.created_at
      · rw [if_pos hgt] at h
        cases h
        rcases List.mem_cons.mp hr1 with h1 | h1
        · rw [h1]; exact le_of_lt hgt
        · exact ih hpl r1 h1
      · rw [if_neg hgt] at h
        cases h
        rcases List.mem_cons.mp hr1 with h1 | h1
        · rw [h1]
        · exact le_trans (ih hpl r1 h1) (le_of_not_gt hgt)

lemma pickLatest_eq_of_dominant : ∀ (l : List Row) (v : Row), v ∈ l →
    (∀ r ∈ l, r.created_at ≤ v.created_at) →
    (∀ r ∈ l, r.created_at = v.created_at → r = v) →
    pickLatest l = some v := by
  intro l
  induction l with
  | nil => intro v hv; cases hv
  | cons r rs ih =>
    intro v hv hmax huniq
    cases hpl : pickLatest rs with
    | none =>
      simp only [pickLatest, hpl]
      have hrs : rs = [] := (pickLatest_none_iff rs).mp hpl
      subst hrs
      rcases List.mem_cons.mp hv with h1 | h1
      · rw [h1]
      · cases h1
    | some b =>
      simp only [pickLatest, hpl]
      have hbmem : b ∈ rs := pickLatest_mem hpl
      by_cases hgt : b.created_at > r.created_at
      · rw [if_pos hgt]
        have hble : b.created_at ≤ v.created_at := hmax b (List.mem_cons_of_mem r hbmem)
        rcases List.mem_cons.mp hv with h1 | h1
        · exact absurd (lt_of_le_of_lt hble (h1 ▸ hgt)) (lt_irrefl _)
        · have hvle : v.created_at ≤ b.created_at := pickLatest_le hpl v h1
          rw [huniq b (List.mem_cons_of_mem r hbmem) (le_antisymm hble hvle)]
      · rw [if_neg hgt]
        have hrle : r.created_at ≤ v.created_at := hmax r (List.mem_cons_self r rs)
        have hvler : v.created_at ≤ r.created_at := by
          rcases List.mem_cons.mp hv with h1 | h1
          · rw [h1]
          · exact le_trans (pickLatest_le hpl v h1) (le_of_not_gt hgt)
        rw [huniq r (List.mem_cons_self r rs) (le_antisymm hrle hvler)]

lemma filter_map_comm (rows : List Row) (f : Row → Row) (p : Row → Bool)
    (hp : ∀ r, p (f r) = p r) :
    (rows.map f).filter p = (rows.filter p).map f := by
  induction rows with
  | nil => rfl
  | cons r rs ih =>
    simp only [List.map_cons, List.filter_cons, hp r]
    cases p r
    · simpa using ih
    · simpa using ih

lemma countP_map_eq (rows : List Row) (f : Row → Row) (p : Row → Bool)
    (hp : ∀ r, p (f r) = p r) :
    (rows.map f).countP p = rows.countP p := by
  rw [List.countP_eq_length_filter, List.countP_eq_length_filter,
    filter_map_comm rows f p hp, List.length_map]

/-- The spec's upsert operation is db.add with upsert=True. -/
def upsert (d : DB) (c m : String) (nme : Option String)
    (md : List (String × String)) (ss : Option String) (t : Nat) : DB × Row :=
  add d c m nme md true ss t

lemma matchesChannel_false_iff (c : String) (r : Row) :
    matchesChannel c false r = true ↔ r.channel = c := by
  simp [matchesChannel]

lemma get_by_channel_mk (rows : List Row) (k : Nat) (c : String) (u : Bool) :
    get_by_channel ⟨rows, k⟩ c u = pickLatest (rows.filter (matchesChannel c u)) := rfl

lemma upsert_update_shape (X : DB) (e : Row) (c m : String) (nme : Option String)
    (md : List (String × String)) (ss : Option String) (t : Nat)
    (hkey : get_by_channel X c false = some e) :
    upsert X c m nme md ss t =
      ({ X with rows := X.rows.map (fun r => if r.id == e.id then
          { r with message := m, name := nme, metadata := md, created_at := t,
                   status := .unread, read_at := none, switch_source := ss } else r) },
       ⟨e.id, c, m, nme, md, .unread, t, none, ss⟩) := by
  unfold upsert add
  rw [if_pos rfl, hkey]

lemma upsert_insert_shape (X : DB) (c m : String) (nme : Option String)
    (md : List (String × String)) (ss : Option String) (t : Nat)
    (hkey : get_by_channel X c false = none) :
    upsert X c m nme md ss t =
      ({ rows := X.rows ++ [⟨X.nextId, c, m, nme, md, .unread, t, none, ss⟩],
         nextId := X.nextId + 1 },
       ⟨X.nextId, c, m, nme, md, .unread, t, none, ss⟩) := by
  unfold upsert add
  rw [if_pos rfl, hkey]

/-- After one upsert at a time strictly newer than every row of the channel,
get_by_channel finds exactly the row the upsert wrote (the returned
Notification value). -/
lemma get_by_channel_after_upsert (d : DB) (c m : String) (nme : Option String)
    (md : List (String × String)) (ss : Option String) (t : Nat)
    (hfresh : ∀ r ∈ d.rows, r.channel = c → r.created_at < t) :
    get_by_channel (upsert d c m nme md ss t).1 c false =
      some (upsert d c m nme md ss t).2 := by
  cases hgb : get_by_channel d c false with
  | none =>
    have hF : d.rows.filter (matchesChannel c false) = [] :=
      (pickLatest_none_iff _).mp hgb
    rw [upsert_insert_shape d c m nme md ss t hgb]
    rw [get_by_channel_mk, List.filter_append, hF]
    simp [matchesChannel, pickLatest]
  | some e0 =>
    have he0F : e0 ∈ d.rows.filter (matchesChannel c false) := pickLatest_mem hgb
    have he0mem : e0 ∈ d.rows := (List.mem_filter.mp he0F).1
    have he0c : e0.channel = c :=
      (matchesChannel_false_iff c e0).mp (List.mem_filter.mp he0F).2
    rw [upsert_update_shape d e0 c m nme md ss t hgb]
    rw [get_by_channel_mk, filter_map_comm _ _ _ (fun r => by
      by_cases h : (r.id == e0.id) = true
      · rw [if_pos h]
        simp [matchesChannel]
      · rw [if_neg h])]
    apply pickLatest_eq_of_dominant
    · refine List.mem_map.mpr ⟨e0, he0F, ?_⟩
      rw [if_pos (beq_self_eq_true e0.id)]
      obtain ⟨eid, ech, emsg, ena, emd, est, eca, era, ess⟩ := e0
      simp only at he0c
      rw [he0c]
    · intro r hr
      obtain ⟨r0, hr0F, hru⟩ := List.mem_map.mp hr
      have hr0c : r0.channel = c :=
        (matchesChannel_false_iff c r0).mp (List.mem_filter.mp hr0F).2
      have hr0mem : r0 ∈ d.rows := (List.mem_filter.mp hr0F).1
      by_cases h : (r0.id == e0.id) = true
      · rw [if_pos h] at hru
        rw [← hru]
      · rw [if_neg h] at hru
        rw [← hru]
        exact le_of_lt (hfresh r0 hr0mem hr0c)
    · intro r hr hrt
      obtain ⟨r0, hr0F, hru⟩ := List.mem_map.mp hr
      have hr0c : r0.channel = c :=
        (matchesChannel_false_iff c r0).mp (List.mem_filter.mp hr0F).2
      have hr0mem : r0 ∈ d.rows := (List.mem_filter.mp hr0F).1
      by_cases h : (r0.id == e0.id) = true
      · rw [← hru, if_pos h]
        rw [show r0.id = e0.id from eq_of_beq h, hr0c]
      · rw [if_neg h] at hru
        rw [← hru] at hrt
        exact absurd (hrt ▸ hfresh r0 hr0mem hr0c) (lt_irrefl _)

lemma upsert_ret_shape (d : DB) (c m : String) (nme : Option String)
    (md : List (String × String)) (ss : Option String) (t : Nat) :
    ∃ i : Nat, (upsert d c m nme md ss t).2 = ⟨i, c, m, nme, md, .unread, t, none, ss⟩ := by
  cases hgb : get_by_channel d c false with
  | none => exact ⟨d.nextId, by rw [upsert_insert_shape d c m nme md ss t hgb]⟩
  | some e0 => exact ⟨e0.id, by rw [upsert_update_shape d e0 c m nme md ss t hgb]⟩

/-- C1: with the clock ahead of every stored row of the channel, a second upsert
on that channel updates the first upsert's row in place: the number of rows of
the channel does not grow (no second active row), the returned id is stable,
the result is unread with read_at cleared and created_at refreshed to the new
clock reading, so created_at advances monotonically; every stored row carrying
that id is reset the same way. -/
theorem upsert_idempotent_same_channel
    (d : DB) (c m1 m2 : String) (n1 n2 : Option String)
    (md1 md2 : List (String × String)) (ss1 ss2 : Option String) (t1 t2 : Nat)
    (hfresh : ∀ r ∈ d.rows, r.channel = c → r.created_at < t1)
    (hmono : t1 ≤ t2) :
    ((upsert (upsert d c m1 n1 md1 ss1 t1).1 c m2 n2 md2 ss2 t2).1.rows.countP
        (fun r => r.channel == c) =
      (upsert d c m1 n1 md1 ss1 t1).1.rows.countP (fun r => r.channel == c)) ∧
    (upsert (upsert d c m1 n1 md1 ss1 t1).1 c m2 n2 md2 ss2 t2).2.id =
      (upsert d c m1 n1 md1 ss1 t1).2.id ∧
    (upsert (upsert d c m1 n1 md1 ss1 t1).1 c m2 n2 md2 ss2 t2).2.status = .unread ∧
    (upsert (upsert d c m1 n1 md1 ss1 t1).1 c m2 n2 md2 ss2 t2).2.read_at = none ∧
    (upsert (upsert d c m1 n1 md1 ss1 t1).1 c m2 n2 md2 ss2 t2).2.created_at = t2 ∧
    (upsert d c m1 n1 md1 ss1 t1).2.created_at ≤
      (upsert (upsert d c m1 n1 md1 ss1 t1).1 c m2 n2 md2 ss2 t2).2.created_at ∧
    (∀ r ∈ (upsert (upsert d c m1 n1 md1 ss1 t1).1 c m2 n2 md2 ss2 t2).1.rows,
      r.id = (upsert d c m1 n1 md1 ss1 t1).2.id →
        r.status = .unread ∧ r.read_at = none ∧ r.created_at = t2) := by
  have hkey := get_by_channel_after_upsert d c m1 n1 md1 ss1 t1 hfresh
  have h2 := upsert_update_shape (upsert d c m1 n1 md1 ss1 t1).1
    (upsert d c m1 n1 md1 ss1 t1).2 c m2 n2 md2 ss2 t2 hkey
  obtain ⟨i1, hI⟩ := upsert_ret_shape d c m1 n1 md1 ss1 t1
  refine ⟨?_, ?_, ?_, ?_, ?_, ?_, ?_⟩
  · rw [h2]
    exact countP_map_eq _ _ _ (fun r => by
      by_cases h : (r.id == (upsert d c m1 n1 md1 ss1 t1).2.id) = true
      · rw [if_pos h]
      · rw [if_neg h])
  · rw [h2]
  · rw [h2]
  · rw [h2]
  · rw [h2]
  · rw [h2, hI]
    exact hmono
  · intro r hr hid
    rw [h2] at hr
    obtain ⟨r0, hr0, hru⟩ := List.mem_map.mp hr
    by_cases h : (r0.id == (upsert d c m1 n1 md1 ss1 t1).2.id) = true
    · rw [if_pos h] at hru
      rw [← hru]
      exact ⟨rfl, rfl, rfl⟩
    · rw [if_neg h] at hru
      rw [← hru] at hid
      exact absurd (beq_iff_eq.mpr hid) h

/-- Witness for C1 at a concrete table: an empty store upserted twice for
channel "claude:abc" at times 5 then 9. -/
theorem upsert_idempotent_same_channel_witness :
    ((upsert (upsert emptyDB "claude:abc" "m1" none [] none 5).1
        "claude:abc" "m2" none [] none 9).1.rows.countP
          (fun r => r.channel == "claude:abc") =
      (upsert emptyDB "claude:abc" "m1" none [] none 5).1.rows.countP
        (fun r => r.channel == "claude:abc")) ∧
    (upsert (upsert emptyDB "claude:abc" "m1" none [] none 5).1
        "claude:abc" "m2" none [] none 9).2.id =
      (upsert emptyDB "claude:abc" "m1" none [] none 5).2.id ∧
    (upsert (upsert emptyDB "claude:abc" "m1" none [] none 5).1
        "claude:abc" "m2" none [] none 9).2.status = .unread ∧
    (upsert (upsert emptyDB "claude:abc" "m1" none [] none 5).1
        "claude:abc" "m2" none [] none 9).2.read_at = none ∧
    (upsert (upsert emptyDB "claude:abc" "m1" none [] none 5).1
        "claude:abc" "m2" none [] none 9).2.created_at = 9 ∧
    (upsert emptyDB "claude:abc" "m1" none [] none 5).2.created_at ≤
      (upsert (upsert emptyDB "claude:abc" "m1" none [] none 5).1
        "claude:abc" "m2" none [] none 9).2.created_at ∧
    (∀ r ∈ (upsert (upsert emptyDB "claude:abc" "m1" none [] none 5).1
        "claude:abc" "m2" none [] none 9).1.rows,
      r.id = (upsert emptyDB "claude:abc" "m1" none [] none 5).2.id →
        r.status = .unread ∧ r.read_at = none ∧ r.created_at = 9) :=
  upsert_idempotent_same_channel emptyDB "claude:abc" "m1" "m2" none none [] []
    none none 5 9 (by intro r hr; simp [emptyDB] at hr) (by decide)

/-- Does channel c appear in getActive's results? -/
def channelInActive (d : DB) (ss : Option String) (c : String) : Bool :=
  (get_active d ss).any (fun r => r.channel == c)

/-- The store operations of the claim that indeed cannot resurrect an archived
channel (mark_all_read_for_channel only touches unread rows; update_message and
update_name do not touch status or id; the read-only get queries are omitted as
they do not mutate at all). mark_read and clear_old are excluded: the
counterexample shows mark_read on the archived id resurrects the channel. -/
inductive SafeOp
  | sMarkAllRead (channel : String) (message : Option String) (now : Nat)
  | sUpdateMessage (channel message : String)
  | sUpdateName (notification_id : Nat) (name : Option String)

def applySafeOp (d : DB) : SafeOp → DB
  | .sMarkAllRead c m now => (mark_all_read_for_channel d c m now).1
  | .sUpdateMessage c m => (update_message d c m).1
  | .sUpdateName i n => (update_name d i n).1

def runSafeOps (d : DB) (ops : List SafeOp) : DB :=
  ops.foldl applySafeOp d

lemma maxIdForChannel_map (rows : List Row) (c : String) (f : Row → Row)
    (hid : ∀ r, (f r).id = r.id) (hch : ∀ r, (f r).channel = r.channel) :
    maxIdForChannel (rows.map f) c = maxIdForChannel rows c := by
  unfold maxIdForChannel
  rw [List.foldl_map]
  have aux : ∀ (l : List Row) (m : Nat),
      l.foldl (fun m r => if (f r).channel == c then max m (f r).id else m) m =
        l.foldl (fun m r => if r.channel == c then max m r.id else m) m := by
    intro l
    induction l with
    | nil => intro m; rfl
    | cons r rs ih =>
      intro m
      simp only [List.foldl_cons, hid r, hch r]
      exact ih _
  exact aux rows 0

/-- A per-row rewrite that keeps id, channel and switch_source and keeps
archived rows archived cannot make an absent channel reappear in getActive. -/
lemma absent_after_map (d : DB) (ss : Option String) (c : String) (f : Row → Row)
    (hid : ∀ r, (f r).id = r.id) (hch : ∀ r, (f r).channel = r.channel)
    (hss : ∀ r, (f r).switch_source = r.switch_source)
    (harch : ∀ r, r.status = .archived → (f r).status = .archived)
    (habs : channelInActive d ss c = false) :
    channelInActive { d with rows := d.rows.map f } ss c = false := by
  unfold channelInActive get_active at habs ⊢
  rw [List.any_eq_false] at habs ⊢
  intro r' hr'
  rw [List.mem_filter] at hr'
  obtain ⟨hmem', hkeep'⟩ := hr'
  obtain ⟨r, hrmem, hrf⟩ := List.mem_map.mp hmem'
  intro hcc
  have hrc : r.channel = c := by rw [← hch r, hrf]; exact eq_of_beq hcc
  refine habs r (List.mem_filter.mpr ⟨hrmem, ?_⟩) (by rw [hrc]; exact beq_self_eq_true c)
  unfold activeKeep at hkeep' ⊢
  rw [Bool.and_eq_true, Bool.and_eq_true] at hkeep'
  obtain ⟨⟨hkid, hkst⟩, hkss⟩ := hkeep'
  rw [Bool.and_eq_true, Bool.and_eq_true]
  refine ⟨⟨?_, ?_⟩, ?_⟩
  · rw [← hrf] at hkid
    rw [hid r, hch r, maxIdForChannel_map d.rows _ f hid hch] at hkid
    exact hkid
  · rcases hst : r.status with _ | _ | _
    · simp
    · simp
    · rw [← hrf, harch r hst] at hkst
      simp at hkst
  · rw [← hrf, hss r] at hkss
    exact hkss

lemma applySafeOp_preserves_absent (d : DB) (ss : Option String) (c : String)
    (op : SafeOp) (habs : channelInActive d ss c = false) :
    channelInActive (applySafeOp d op) ss c = false := by
  cases op with
  | sMarkAllRead c1 m1 now =>
    refine absent_after_map d ss c _ ?_ ?_ ?_ ?_ habs
    · intro r
      by_cases h : (r.channel == c1 && r.status == Status.unread) = true
      · rw [if_pos h]
      · rw [if_neg h]
    · intro r
      by_cases h : (r.channel == c1 && r.status == Status.unread) = true
      · rw [if_pos h]
      · rw [if_neg h]
    · intro r
      by_cases h : (r.channel == c1 && r.status == Status.unread) = true
      · rw [if_pos h]
      · rw [if_neg h]
    · intro r hst
      by_cases h : (r.channel == c1 && r.status == Status.unread) = true
      · rw [Bool.and_eq_true] at h
        have h3 : r.status = Status.unread := eq_of_beq h.2
        rw [hst] at h3
        exact absurd h3 (by decide)
      · rw [if_neg h]
        exact hst
  | sUpdateMessage c1 m1 =>
    refine absent_after_map d ss c _ ?_ ?_ ?_ ?_ habs
    · intro r
      by_cases h : (r.channel == c1) = true
      · rw [if_pos h]
      · rw [if_neg h]
    · intro r
      by_cases h : (r.channel == c1) = true
      · rw [if_pos h]
      · rw [if_neg h]
    · intro r
      by_cases h : (r.channel == c1) = true
      · rw [if_pos h]
      · rw [if_neg h]
    · intro r hst
      by_cases h : (r.channel == c1) = true
      · rw [if_pos h]
        exact hst
      · rw [if_neg h]
        exact hst
  | sUpdateName i n =>
    simp only [applySafeOp, update_name]
    cases hg : get d i with
    | none => exact habs
    | some n0 =>
      refine absent_after_map d ss c _ ?_ ?_ ?_ ?_ habs
      · intro r
        by_cases h : (r.id == i) = true
        · rw [if_pos h]
        · rw [if_neg h]
      · intro r
        by_cases h : (r.id == i) = true
        · rw [if_pos h]
        · rw [if_neg h]
      · intro r
        by_cases h : (r.id == i) = true
        · rw [if_pos h]
        · rw [if_neg h]
      · intro r hst
        by_cases h : (r.id == i) = true
        · rw [if_pos h]
          exact hst
        · rw [if_neg h]
          exact hst

lemma runSafeOps_preserves_absent (ops : List SafeOp) :
    ∀ (d : DB) (ss : Option String) (c : String),
      channelInActive d ss c = false →
      channelInActive (runSafeOps d ops) ss c = false := by
  induction ops with
  | nil => intro d ss c h; exact h
  | cons op ops ih =>
    intro d ss c h
    exact ih (applySafeOp d op) ss c (applySafeOp_preserves_absent d ss c op h)

lemma archive_latest_absent (d : DB) (c : String) (r0 : Row) (ss : Option String)
    (_hch : r0.channel = c) (hmax : r0.id = maxIdForChannel d.rows c) :
    channelInActive (archive d r0.id) ss c = false := by
  unfold channelInActive get_active archive
  rw [List.any_eq_false]
  intro r' hr'
  rw [List.mem_filter] at hr'
  obtain ⟨hmem', hkeep'⟩ := hr'
  obtain ⟨r, hrmem, hrf⟩ := List.mem_map.mp hmem'
  intro hcc
  unfold activeKeep at hkeep'
  rw [Bool.and_eq_true, Bool.and_eq_true] at hkeep'
  obtain ⟨⟨hkid, hkst⟩, _⟩ := hkeep'
  have hidp : ∀ s : Row, ((if s.id == r0.id then { s with status := Status.archived } else s) : Row).id = s.id := by
    intro s
    by_cases h : (s.id == r0.id) = true
    · rw [if_pos h]
    · rw [if_neg h]
  have hchp : ∀ s : Row, ((if s.id == r0.id then { s with status := Status.archived } else s) : Row).channel = s.channel := by
    intro s
    by_cases h : (s.id == r0.id) = true
    · rw [if_pos h]
    · rw [if_neg h]
  have hrc : r'.channel = c := eq_of_beq hcc
  rw [← hrf, hidp r, hchp r] at hkid
  rw [maxIdForChannel_map d.rows _ _ hidp hchp] at hkid
  have hrc2 : r.channel = c := by rw [← hchp r, hrf]; exact hrc
  rw [hrc2, ← hmax] at hkid
  rw [← hrf, if_pos hkid] at hkst
  simp at hkst

lemma get_active_mk (rows : List Row) (k : Nat) (ss : Option String) :
    get_active ⟨rows, k⟩ ss = rows.filter (activeKeep rows ss) := rfl

lemma upsert_resurrects (d : DB) (c m : String) (nme : Option String)
    (md : List (String × String)) (ss1 : Option String) (t : Nat) (v : Row)
    (hv : v ∈ d.rows) (hvch : v.channel = c) (hvmax : v.id = maxIdForChannel d.rows c)
    (hdom : ∀ r ∈ d.rows, r.channel = c → r ≠ v → r.created_at < v.created_at) :
    ∃ r ∈ get_active (upsert d c m nme md ss1 t).1 none,
      r.channel = c ∧ r.status = .unread := by
  have hgb : get_by_channel d c false = some v := by
    apply pickLatest_eq_of_dominant
    · exact List.mem_filter.mpr ⟨hv, (matchesChannel_false_iff c v).mpr hvch⟩
    · intro r hr
      have hrm := List.mem_filter.mp hr
      by_cases he : r = v
      · rw [he]
      · exact le_of_lt (hdom r hrm.1 ((matchesChannel_false_iff c r).mp hrm.2) he)
    · intro r hr hrt
      have hrm := List.mem_filter.mp hr
      by_cases he : r = v
      · exact he
      · exact absurd (hrt ▸ hdom r hrm.1 ((matchesChannel_false_iff c r).mp hrm.2) he)
          (lt_irrefl _)
  rw [upsert_update_shape d v c m nme md ss1 t hgb]
  have hidp : ∀ s : Row, ((if s.id == v.id then
      { s with message := m, name := nme, metadata := md, created_at := t,
               status := Status.unread, read_at := none, switch_source := ss1 }
    else s) : Row).id = s.id := by
    intro s
    by_cases h : (s.id == v.id) = true
    · rw [if_pos h]
    · rw [if_neg h]
  have hchp : ∀ s : Row, ((if s.id == v.id then
      { s with message := m, name := nme, metadata := md, created_at := t,
               status := Status.unread, read_at := none, switch_source := ss1 }
    else s) : Row).channel = s.channel := by
    intro s
    by_cases h : (s.id == v.id) = true
    · rw [if_pos h]
    · rw [if_neg h]
  refine ⟨{ v with message := m, name := nme, metadata := md, created_at := t,
                   status := Status.unread, read_at := none, switch_source := ss1 },
    ?_, hvch, rfl⟩
  rw [get_active_mk, List.mem_filter]
  constructor
  · refine List.mem_map.mpr ⟨v, hv, ?_⟩
    rw [if_pos (beq_self_eq_true v.id)]
  · unfold activeKeep
    rw [Bool.and_eq_true, Bool.and_eq_true]
    refine ⟨⟨?_, by simp⟩, by simp⟩
    rw [maxIdForChannel_map d.rows _ _ hidp hchp]
    show (v.id == maxIdForChannel d.rows v.channel) = true
    rw [hvch, ← hvmax]
    exact beq_self_eq_true v.id

/-- C7 (counterexample): at a concrete store, archive the channel's only (hence
most recent) row — getActive no longer lists the channel — then call mark_read
on that archived id, an operation the claim allows without an upsert: the row
becomes 'read' and the channel reappears in getActive. -/
theorem archive_oneway_fails_mark_read :
    get_active (archive (upsert emptyDB "c" "m" none [] none 1).1 1) none = [] ∧
    (get_active (mark_read (archive (upsert emptyDB "c" "m" none [] none 1).1 1) 1 7)
        none).map Row.channel = ["c"] := by
  constructor
  · decide
  · decide

/-- C7 (amended): (1) archiving a channel's most-recent (max-id) row removes the
channel from getActive under any switch_source filter; (2) it stays absent under
any sequence of mark_all_read_for_channel, update_message and update_name calls
(read-only queries aside, these are the mutations that indeed cannot resurrect;
mark_read on the archived id — and clear_old deleting it while an older
non-archived row survives — can resurrect, see the counterexample); (3) a fresh
upsert of the channel makes it reappear in getActive with status 'unread'. -/
theorem archive_oneway_amended :
    (∀ (d : DB) (c : String) (r0 : Row) (ss : Option String),
      r0.channel = c → r0.id = maxIdForChannel d.rows c →
      channelInActive (archive d r0.id) ss c = false) ∧
    (∀ (d : DB) (ss : Option String) (c : String) (ops : List SafeOp),
      channelInActive d ss c = false →
      channelInActive (runSafeOps d ops) ss c = false) ∧
    (∀ (d : DB) (c m : String) (nme : Option String) (md : List (String × String))
      (ss1 : Option String) (t : Nat) (v : Row),
      v ∈ d.rows → v.channel = c → v.id = maxIdForChannel d.rows c →
      (∀ r ∈ d.rows, r.channel = c → r ≠ v → r.created_at < v.created_at) →
      ∃ r ∈ get_active (upsert d c m nme md ss1 t).1 none,
        r.channel = c ∧ r.status = .unread) :=
  ⟨fun d c r0 ss hch hmax => archive_latest_absent d c r0 ss hch hmax,
   fun d ss c ops habs => runSafeOps_preserves_absent ops d ss c habs,
   fun d c m nme md ss1 t v hv hvch hvmax hdom =>
     upsert_resurrects d c m nme md ss1 t v hv hvch hvmax hdom⟩

/-- Witness for C7's amended theorem on a concrete store: one archived channel
"c" stays out of getActive across an update_message and a mark_all_read call,
and a fresh upsert brings it back unread. -/
theorem archive_oneway_amended_witness :
    channelInActive (archive (upsert emptyDB "c" "m" none [] none 1).1 1) none "c" = false ∧
    channelInActive (runSafeOps (archive (upsert emptyDB "c" "m" none [] none 1).1 1)
      [.sUpdateMessage "c" "hello", .sMarkAllRead "c" none 9]) none "c" = false ∧
    (∃ r ∈ get_active (upsert (archive (upsert emptyDB "c" "m" none [] none 1).1 1)
        "c" "m2" none [] none 9).1 none, r.channel = "c" ∧ r.status = .unread) := by
  refine ⟨?_, ?_, ?_⟩
  · exact archive_oneway_amended.1
      (upsert emptyDB "c" "m" none [] none 1).1 "c"
      { id := 1, channel := "c", message := "m", metadata := [], status := .archived,
        created_at := 1 } none (by decide) (by decide)
  · exact archive_oneway_amended.2.1
      (archive (upsert emptyDB "c" "m" none [] none 1).1 1) none "c"
      [.sUpdateMessage "c" "hello", .sMarkAllRead "c" none 9] (by decide)
  · exact archive_oneway_amended.2.2
      (archive (upsert emptyDB "c" "m" none [] none 1).1 1) "c" "m2" none [] none 9
      { id := 1, channel := "c", message := "m", metadata := [], status := .archived,
        created_at := 1 } (by decide) (by decide) (by decide) (by decide)

/-- C2: two active notifications share a (truthy) TTY and the same
channel-inferred process name, were created at t1 < t2, and both survive the
pane-existence pass; one run of _archive_stale_sessions archives exactly the
older one when the process still runs on the TTY, and both when it does not. -/
theorem reconciler_tie_break
    (pane psContains : String → String → Bool)
    (c1 c2 s1 s2 w1 w2 m1 m2 t : String) (t1 t2 : Nat)
    (u1 u2 : Bool) (ss1 ss2 : Option String)
    (ht : t ≠ "") (hord : t1 < t2)
    (hpn : inferProcessName c1 = inferProcessName c2)
    (hp1 : paneGone pane ⟨c1, s1, w1, t1, u1, some t, m1, ss1⟩ = false)
    (hp2 : paneGone pane ⟨c2, s2, w2, t2, u2, some t, m2, ss2⟩ = false) :
    archive_stale_sessions pane psContains
      [⟨c1, s1, w1, t1, u1, some t, m1, ss1⟩, ⟨c2, s2, w2, t2, u2, some t, m2, ss2⟩] =
      if is_process_running_on_tty psContains t (inferProcessName c1) then [c1]
      else [c1, c2] := by
  have htb : (t == "") = false := beq_false_of_ne ht
  have hpn2 : inferProcessName c2 = inferProcessName c1 := hpn.symm
  generalize hg1 : inferProcessName c1 = pn at hpn2 ⊢
  simp only [archive_stale_sessions, firstPass, hp1, hp2, Bool.false_eq_true, if_false,
    buildGroups, List.foldl_cons, List.foldl_nil, htb, addToGroups, hpn2, hg1,
    eq_self_iff_true, if_true, processGroup, sortByCreatedDesc, insertByCreatedDesc,
    gt_iff_lt, hord, List.nil_append, List.map_cons, List.map_nil]
  cases hrun : is_process_running_on_tty psContains t pn with
  | false => simp [insertByCreatedDesc, hord]
  | true => simp [insertByCreatedDesc, hord]

/-- Witness for C2 on concrete data: channels "claude:aa" (created 10) and
"claude:bb" (created 20) share TTY "/dev/ttys003"; with the process alive only
"claude:aa" is archived, as the theorem's then-branch states. -/
theorem reconciler_tie_break_witness :
    archive_stale_sessions (fun _ _ => true) (fun _ _ => true)
      [⟨"claude:aa", "s", "w", 10, true, some "/dev/ttys003", "m", none⟩,
       ⟨"claude:bb", "s", "w", 20, true, some "/dev/ttys003", "m", none⟩] =
      if is_process_running_on_tty (fun _ _ => true) "/dev/ttys003"
          (inferProcessName "claude:aa") then ["claude:aa"]
      else ["claude:aa", "claude:bb"] :=
  reconciler_tie_break (fun _ _ => true) (fun _ _ => true)
    "claude:aa" "claude:bb" "s" "s" "w" "w" "m" "m" "/dev/ttys003" 10 20
    true true none none (by decide) (by decide) (by decide) (by decide) (by decide)

/-- An entry that can never trigger a since-scan with bound `bound`: its
timestamp is missing/unparseable or parses to at most `bound`. -/
def tsAtMost (parseTs : String → Option Nat) (bound : Nat) (e : Entry) : Bool :=
  match parseTs e.timestamp with
  | some t => t ≤ bound
  | none => true

lemma scanSince_some : ∀ (l : List Line) (parseTs : String → Option Nat)
    (since : Nat) (p : Entry → Bool) (e : Entry),
    scanSince parseTs since p l = some e →
    p e = true ∧ ∃ tn, parseTs e.timestamp = some tn ∧ since < tn := by
  intro l
  induction l with
  | nil => intro _ _ _ e h; cases h
  | cons ln rest ih =>
    intro parseTs since p e h
    cases ln with
    | none => exact ih parseTs since p e h
    | some e1 =>
      simp only [scanSince] at h
      cases hts : parseTs e1.timestamp with
      | none =>
        simp only [hts] at h
        exact ih parseTs since p e h
      | some t =>
        simp only [hts] at h
        split at h
        next hg =>
          cases h
          rw [Bool.and_eq_true] at hg
          obtain ⟨hg1, hp⟩ := hg
          rw [Bool.and_eq_true] at hg1
          exact ⟨hp, t, hts, of_decide_eq_true hg1.2⟩
        next hg => exact ih parseTs since p e h

lemma scanSince_none_of_stale : ∀ (l : List Line) (parseTs : String → Option Nat)
    (since : Nat) (p : Entry → Bool),
    (∀ e ∈ l.filterMap id, tsAtMost parseTs since e = true) →
    scanSince parseTs since p l = none := by
  intro l
  induction l with
  | nil => intro _ _ _ _; rfl
  | cons ln rest ih =>
    intro parseTs since p hstale
    cases ln with
    | none =>
      simp only [scanSince]
      exact ih parseTs since p (fun e he => hstale e (by simpa using he))
    | some e1 =>
      have he1 : tsAtMost parseTs since e1 = true :=
        hstale e1 (by simp)
      have hrest : scanSince parseTs since p rest = none :=
        ih parseTs since p (fun e he => hstale e (by simp [he]))
      simp only [scanSince]
      cases hts : parseTs e1.timestamp with
      | none => simp only [hts]; exact hrest
      | some t =>
        unfold tsAtMost at he1
        rw [hts] at he1
        have hle : t ≤ since := by simpa using he1
        simp only [hts]
        split
        next hg =>
          rw [Bool.and_eq_true, Bool.and_eq_true] at hg
          exact absurd (of_decide_eq_true hg.1.2) (not_lt.mpr hle)
        next => exact hrest

lemma entries_of_tail_subset (lines : List Line) (e : Entry)
    (he : e ∈ ((lastEntries 50 lines).reverse).filterMap id) :
    e ∈ lines.filterMap id := by
  rw [List.mem_filterMap] at he ⊢
  obtain ⟨ln, hln, hid⟩ := he
  rw [List.mem_reverse] at hln
  exact ⟨ln, List.drop_subset _ _ hln, hid⟩

/-- C5: in the watcher loop an unread notification created at T0 is marked read
exactly via has_activity_since: (i) when it fires, the triggering entry is
dismiss-worthy and its own timestamp parses to a value strictly greater than
T0; (ii) if every entry of the tail has a missing, unparseable or ≤ T0
timestamp, it never fires; (iii) the loop's unread branch emits a mark_read
only when the notification is unread and such an entry exists. -/
theorem dismiss_transition_ordering
    (parseTs : String → Option Nat) (lines : List Line) (T0 : Nat)
    (sd : Entry → Bool) (channel : String) (isUnread : Bool) :
    (∀ e, has_activity_since parseTs lines T0 sd = some e →
      sd e = true ∧ ∃ tn, parseTs e.timestamp = some tn ∧ T0 < tn) ∧
    ((∀ e ∈ lines.filterMap id, tsAtMost parseTs T0 e = true) →
      has_activity_since parseTs lines T0 sd = none) ∧
    (dismissStep parseTs lines T0 isUnread sd channel ≠ [] →
      isUnread = true ∧
        ∃ e, has_activity_since parseTs lines T0 sd = some e ∧ sd e = true ∧
          ∃ tn, parseTs e.timestamp = some tn ∧ T0 < tn) := by
  refine ⟨?_, ?_, ?_⟩
  · intro e h
    exact scanSince_some _ parseTs T0 sd e h
  · intro hstale
    exact scanSince_none_of_stale _ parseTs T0 sd
      (fun e he => hstale e (entries_of_tail_subset lines e he))
  · intro hne
    unfold dismissStep at hne
    cases hu : isUnread with
    | false => rw [hu] at hne; simp at hne
    | true =>
      rw [hu] at hne
      refine ⟨rfl, ?_⟩
      cases hh : has_activity_since parseTs lines T0 sd with
      | none => rw [hh] at hne; simp at hne
      | some e => exact ⟨e, rfl, scanSince_some _ parseTs T0 sd e hh⟩

/-- Witness for C5 at concrete data: a two-line tail whose dismiss-worthy entry
is timestamped 5; with created_at 3 the scan fires on it, and with created_at 7
every entry is stale so the scan stays silent. -/
theorem dismiss_transition_ordering_witness :
    (Entry.mk "t5" "dismiss" "").timestamp = "t5" ∧
    ((fun s => if s = "t5" then some 5 else none) : String → Option Nat) "t5" = some 5 ∧
    has_activity_since (fun s => if s = "t5" then some 5 else none)
      [some ⟨"", "noise", ""⟩, some ⟨"t5", "dismiss", ""⟩] 7
      (fun e => e.kind == "dismiss") = none := by
  refine ⟨rfl, by decide, ?_⟩
  exact (dismiss_transition_ordering (fun s => if s = "t5" then some 5 else none)
    [some ⟨"", "noise", ""⟩, some ⟨"t5", "dismiss", ""⟩] 7
    (fun e => e.kind == "dismiss") "c" true).2.1 (by decide)

/-- Recognizer for update_message store calls among the watcher's actions. -/
def isUpdateMessage : StoreAction → Bool
  | .updateMessage _ _ => true
  | _ => false

lemma find?_map_overwrite {α : Type} (l : List (String × α)) (k : String) (v : α) :
    ((l.map (fun p => if p.1 == k then (k, v) else p)).find? (fun p => p.1 == k)) =
      (l.find? (fun p => p.1 == k)).map (fun _ => (k, v)) := by
  induction l with
  | nil => rfl
  | cons a l ih =>
    by_cases ha : (a.1 == k) = true
    · rw [List.map_cons, if_pos ha, List.find?_cons, List.find?_cons]
      have hk : (((k, v) : String × α).1 == k) = true := beq_self_eq_true k
      simp only [hk, ha]
      rfl
    · rw [List.map_cons, if_neg ha, List.find?_cons, List.find?_cons]
      rw [Bool.not_eq_true] at ha
      simp only [ha]
      exact ih

lemma assocFind_put {α : Type} (l : List (String × α)) (k : String) (v : α) :
    assocFind (assocPut l k v) k = some v := by
  unfold assocPut
  by_cases h : (l.find? (fun p => p.1 == k)).isSome = true
  · rw [if_pos h]
    unfold assocFind
    rw [find?_map_overwrite]
    obtain ⟨a, ha⟩ := Option.isSome_iff_exists.mp h
    rw [ha]
    rfl
  · rw [if_neg h]
    unfold assocFind
    have hnone : l.find? (fun p => p.1 == k) = none := by
      cases hf : l.find? (fun p => p.1 == k)
      · rfl
      · rw [hf] at h; simp at h
    rw [find?_append_none _ _ _ hnone, List.find?_cons]
    have hk : (((k, v) : String × α).1 == k) = true := beq_self_eq_true k
    simp only [hk]
    rfl

lemma dismissStep_filter (parseTs : String → Option Nat) (lines : List Line)
    (T : Nat) (u : Bool) (sd : Entry → Bool) (c : String) :
    (dismissStep parseTs lines T u sd c).filter isUpdateMessage = [] := by
  cases u with
  | false => rfl
  | true =>
    cases h : has_activity_since parseTs lines T sd with
    | some e => simp [dismissStep, h, isUpdateMessage]
    | none => simp [dismissStep, h]

lemma attentionStep_filter (parseTs : String → Option Nat) (lines : List Line)
    (T : Nat) (u mu : Bool) (na : Option (Entry → Bool)) (c : String)
    (la : List (String × Nat)) :
    (attentionStep parseTs lines T u mu na c la).2.filter isUpdateMessage = [] := by
  unfold attentionStep
  by_cases hc : (!u && mu) = true
  · rw [if_pos hc]
    cases na with
    | none => rfl
    | some f =>
      cases h : check_needs_attention parseTs lines ((assocFind la c).getD T) f with
      | some e => simp [h, isUpdateMessage]
      | none => simp [h]
  · rw [if_neg hc]
    rfl

lemma messageStep_idem (parseTs : String → Option Nat) (lines : List Line)
    (describe : Entry → Option String) (channel : String)
    (lastObs : List (String × Nat)) :
    (messageStep parseTs lines describe channel
      (messageStep parseTs lines describe channel lastObs).1).2 = [] := by
  cases hga : get_latest_activity lines describe with
  | none =>
    have hinner : ∀ L : List (String × Nat),
        messageStep parseTs lines describe channel L = (L, []) := by
      intro L
      unfold messageStep
      simp only [hga]
    rw [hinner, hinner]
  | some ms =>
    cases hp : parseTs ms.2 with
    | none =>
      have hinner : ∀ L : List (String × Nat),
          messageStep parseTs lines describe channel L = (L, []) := by
        intro L
        unfold messageStep
        simp only [hga, hp]
      rw [hinner, hinner]
    | some tn =>
      have hshape : ∀ L : List (String × Nat),
          messageStep parseTs lines describe channel L =
            (if !(tn == 0) && !(assocFind L channel == some tn) then
              (assocPut L channel tn, [StoreAction.updateMessage channel ms.1])
            else (L, [])) := by
        intro L
        unfold messageStep
        simp only [hga, hp]
      rw [hshape, hshape]
      by_cases h0 : (tn == 0) = true
      · simp [h0]
      · by_cases hf : (assocFind lastObs channel == some tn) = true
        · simp [h0, hf]
        · simp [h0, hf, assocFind_put]

lemma resolvePath_some_facts (env : WatcherEnv) (b : Backend) (st : WatcherState)
    (it : ActiveItem) (p : String) (st1 : WatcherState)
    (h : resolvePath env b st it = some (p, st1)) :
    st1.last_observed_ts = st.last_observed_ts ∧
    st1.last_attention_ts = st.last_attention_ts ∧
    assocFind st1.session_cache (it.channel ++ ":" ++ it.session_id) = some p ∧
    (env.pathExists p = true ∨ b.get_session_path it.session_id it.cwd = some p) := by
  unfold resolvePath at h
  cases hc : assocFind st.session_cache (it.channel ++ ":" ++ it.session_id) with
  | some q =>
    simp only [hc] at h
    by_cases hex : env.pathExists q = true
    · rw [if_pos hex] at h
      cases h
      exact ⟨rfl, rfl, hc, Or.inl hex⟩
    · rw [if_neg hex] at h
      cases hg : b.get_session_path it.session_id it.cwd with
      | none =>
        simp only [hg] at h
        exact Option.noConfusion h
      | some p1 =>
        simp only [hg] at h
        cases h
        exact ⟨rfl, rfl, assocFind_put _ _ _, Or.inr rfl⟩
  | none =>
    simp only [hc] at h
    cases hg : b.get_session_path it.session_id it.cwd with
    | none =>
      simp only [hg] at h
      exact Option.noConfusion h
    | some p1 =>
      simp only [hg] at h
      cases h
      exact ⟨rfl, rfl, assocFind_put _ _ _, Or.inr rfl⟩

lemma resolvePath_again (env : WatcherEnv) (b : Backend) (st1 : WatcherState)
    (it : ActiveItem) (p : String)
    (hfind : assocFind st1.session_cache (it.channel ++ ":" ++ it.session_id) = some p)
    (hre : env.pathExists p = true ∨ b.get_session_path it.session_id it.cwd = some p) :
    ∃ st2, resolvePath env b st1 it = some (p, st2) ∧
      st2.last_observed_ts = st1.last_observed_ts ∧
      st2.last_attention_ts = st1.last_attention_ts := by
  unfold resolvePath
  simp only [hfind]
  by_cases hex : env.pathExists p = true
  · rw [if_pos hex]
    exact ⟨st1, rfl, rfl, rfl⟩
  · rw [if_neg hex]
    rcases hre with h | h
    · exact absurd h hex
    · simp only [h]
      exact ⟨_, rfl, rfl, rfl⟩

lemma processChannel_resolved (env : WatcherEnv) (backends : List Backend)
    (mu : Bool) (st : WatcherState) (it : ActiveItem) (b : Backend) (p : String)
    (st1 : WatcherState)
    (hfb : findBackend backends it.channel = some b)
    (hrp : resolvePath env b st it = some (p, st1)) :
    processChannel env backends mu st it =
      ({ last_observed_ts := (messageStep env.parseTs (env.fileLines p)
            b.describe_activity it.channel st1.last_observed_ts).1,
         last_attention_ts := (attentionStep env.parseTs (env.fileLines p)
            it.created_at it.is_unread mu b.needs_attention it.channel
            st1.last_attention_ts).1,
         session_cache := st1.session_cache },
       dismissStep env.parseTs (env.fileLines p) it.created_at it.is_unread
           b.should_dismiss it.channel
         ++ (attentionStep env.parseTs (env.fileLines p) it.created_at it.is_unread
              mu b.needs_attention it.channel st1.last_attention_ts).2
         ++ (messageStep env.parseTs (env.fileLines p) b.describe_activity
              it.channel st1.last_observed_ts).2) := by
  unfold processChannel
  simp only [hfb, hrp]

/-- C6: (i) the message branch of the loop emits either nothing or exactly one
update_message for the channel, and in the latter case the latest describable
activity's raw timestamp parses truthily and differs from the one recorded in
last_observed_ts; (ii) running the per-channel body twice on the same item in
the same environment (same backend routing, same session file contents) emits
no update_message on the second run: polling an unchanged tail is idempotent
with respect to message writes. -/
theorem watcher_message_write_suppression :
    (∀ (parseTs : String → Option Nat) (lines : List Line)
      (describe : Entry → Option String) (channel : String)
      (lastObs : List (String × Nat)),
      (messageStep parseTs lines describe channel lastObs).2 = [] ∨
      ∃ m ts tn, (messageStep parseTs lines describe channel lastObs).2 =
          [StoreAction.updateMessage channel m] ∧
        get_latest_activity lines describe = some (m, ts) ∧
        parseTs ts = some tn ∧ tn ≠ 0 ∧ assocFind lastObs channel ≠ some tn) ∧
    (∀ (env : WatcherEnv) (backends : List Backend) (mu : Bool)
      (st : WatcherState) (it : ActiveItem),
      ((processChannel env backends mu
        (processChannel env backends mu st it).1 it).2.filter isUpdateMessage) = []) := by
  constructor
  · intro parseTs lines describe channel lastObs
    cases hga : get_latest_activity lines describe with
    | none =>
      left
      unfold messageStep
      simp only [hga]
    | some ms =>
      cases hp : parseTs ms.2 with
      | none =>
        left
        unfold messageStep
        simp only [hga, hp]
      | some tn =>
        have hshape : messageStep parseTs lines describe channel lastObs =
            (if !(tn == 0) && !(assocFind lastObs channel == some tn) then
              (assocPut lastObs channel tn, [StoreAction.updateMessage channel ms.1])
            else (lastObs, [])) := by
          unfold messageStep
          simp only [hga, hp]
        by_cases h0 : (tn == 0) = true
        · left
          rw [hshape]
          simp [h0]
        · by_cases hf : (assocFind lastObs channel == some tn) = true
          · left
            rw [hshape]
            simp [h0, hf]
          · right
            refine ⟨ms.1, ms.2, tn, ?_, by simp, hp, by simpa using h0, ?_⟩
            · rw [hshape]
              simp [h0, hf]
            · intro hcontra
              rw [Bool.not_eq_true] at hf
              rw [hcontra] at hf
              simp at hf
  · intro env backends mu st it
    cases hfb : findBackend backends it.channel with
    | none => simp [processChannel, hfb]
    | some b =>
      cases hrp : resolvePath env b st it with
      | none => simp [processChannel, hfb, hrp]
      | some ps =>
        obtain ⟨p, st1⟩ := ps
        rw [processChannel_resolved env backends mu st it b p st1 hfb hrp]
        obtain ⟨_, _, hfind, hre⟩ := resolvePath_some_facts env b st it p st1 hrp
        obtain ⟨st2, hrp2, hobs2, _⟩ := resolvePath_again env b
          { last_observed_ts := (messageStep env.parseTs (env.fileLines p)
                b.describe_activity it.channel st1.last_observed_ts).1,
            last_attention_ts := (attentionStep env.parseTs (env.fileLines p)
                it.created_at it.is_unread mu b.needs_attention it.channel
                st1.last_attention_ts).1,
            session_cache := st1.session_cache } it p hfind hre
        rw [processChannel_resolved env backends mu _ it b p st2 hfb hrp2]
        rw [List.filter_append, List.filter_append]
        rw [dismissStep_filter, attentionStep_filter]
        rw [hobs2]
        rw [messageStep_idem]
        rfl

/-- Concrete environment for watcher witnesses: everything empty/unresolvable. -/
def envE : WatcherEnv := ⟨fun _ => false, fun _ => [], fun _ => none⟩

/-- A per-channel body that raises on channel "a" and writes a mark_read for
any other channel — the shape of a backend callback throwing for one channel. -/
def throwingBody : WatcherState → ActiveItem → Except String (WatcherState × List StoreAction) :=
  fun st it =>
    if it.channel == "a" then .error "backend raised"
    else .ok (st, [.markRead it.channel])

def itThrowA : ActiveItem :=
  { channel := "a", session_id := "s", cwd := "w", created_at := 0, is_unread := true }

def itOkB : ActiveItem :=
  { channel := "b", session_id := "s", cwd := "w", created_at := 0, is_unread := true }

/-- A backend that matches every channel but never resolves a session path. -/
def bNone : Backend :=
  { channelPrefix := "", get_session_path := fun _ _ => none,
    describe_activity := fun _ => none, should_dismiss := fun _ => false }

/-- A body that always succeeds with no store writes. -/
def okEmptyBody : WatcherState → ActiveItem → Except String (WatcherState × List StoreAction) :=
  fun st _ => .ok (st, [])

/-- C8 (counterexample): the try/except of unified_watch_loop wraps the whole
tick, not each channel. With a body that raises on channel "a", the tick over
["a", "b"] produces no store action at all — channel "b" of the same tick is
skipped, although processing "b" alone would mark it read — while the loop
itself survives and the following tick still processes "b". This falsifies
the claim's "the remaining channels of that same tick are still processed". -/
theorem tick_exception_skips_remaining_channels :
    runTicks throwingBody {} [[itThrowA, itOkB], [itOkB]] =
      ({}, [([], true), ([StoreAction.markRead "b"], false)]) := rfl

/-- C8 (amended): (i) the loop itself never dies: every tick of the schedule
produces a result, exceptions included; (ii) a channel with no matching backend
is skipped with no state change and no store action; (iii) likewise a channel
whose session path cannot be resolved; (iv) a skipped channel leaves the rest
of its tick to run exactly as if the channel were absent. An exception,
however, aborts the remaining channels of its tick (see the counterexample);
they are only retried on the next tick. -/
theorem watcher_failure_tolerance_amended :
    (∀ (body : WatcherState → ActiveItem → Except String (WatcherState × List StoreAction))
      (st : WatcherState) (ticks : List (List ActiveItem)),
      (runTicks body st ticks).2.length = ticks.length) ∧
    (∀ (env : WatcherEnv) (backends : List Backend) (mu : Bool)
      (st : WatcherState) (it : ActiveItem),
      findBackend backends it.channel = none →
      processChannel env backends mu st it = (st, [])) ∧
    (∀ (env : WatcherEnv) (backends : List Backend) (mu : Bool)
      (st : WatcherState) (it : ActiveItem) (b : Backend),
      findBackend backends it.channel = some b →
      resolvePath env b st it = none →
      processChannel env backends mu st it = (st, [])) ∧
    (∀ (body : WatcherState → ActiveItem → Except String (WatcherState × List StoreAction))
      (st s1 : WatcherState) (it : ActiveItem) (rest : List ActiveItem),
      body st it = .ok (s1, []) →
      runTickBody body st (it :: rest) = runTickBody body s1 rest) := by
  refine ⟨?_, ?_, ?_, ?_⟩
  · intro body st ticks
    induction ticks generalizing st with
    | nil => rfl
    | cons a rest ih =>
      simp only [runTicks, List.length_cons]
      rw [ih]
  · intro env backends mu st it h
    unfold processChannel
    rw [h]
  · intro env backends mu st it b h1 h2
    unfold processChannel
    simp only [h1, h2]
  · intro body st s1 it rest h
    unfold runTickBody
    simp only [h, List.nil_append]
    cases rest with
    | nil => rfl
    | cons a as => rfl

/-- Witness for C8's amended theorem at concrete inputs: a two-tick schedule
always yields two results even though the first tick raises; an empty backend
list skips a channel with no writes; an unresolvable path likewise; and a
skipped head channel leaves the tail of the tick to run unchanged. -/
theorem watcher_failure_tolerance_amended_witness :
    (runTicks throwingBody {} [[itThrowA, itOkB], [itOkB]]).2.length =
      ([[itThrowA, itOkB], [itOkB]] : List (List ActiveItem)).length ∧
    processChannel envE [] false {} itOkB = ({}, []) ∧
    processChannel envE [bNone] false {} itOkB = ({}, []) ∧
    runTickBody okEmptyBody {} [itOkB, itThrowA] = runTickBody okEmptyBody {} [itThrowA] := by
  refine ⟨?_, ?_, ?_, ?_⟩
  · exact watcher_failure_tolerance_amended.1 throwingBody {} [[itThrowA, itOkB], [itOkB]]
  · exact watcher_failure_tolerance_amended.2.1 envE [] false {} itOkB rfl
  · exact watcher_failure_tolerance_amended.2.2.1 envE [bNone] false {} itOkB bNone rfl rfl
  · exact watcher_failure_tolerance_amended.2.2.2 okEmptyBody {} {} itOkB [itThrowA] rfl

end Lemonaid
